import Mathlib

/-!
# Verification of the technical-indicator engine of `scripts/run_technical_analysis.py`

The script enriches a per-ticker OHLCV price frame with indicator columns
(`compute_talib_indicators`, `compute_pynance_metrics`), reduces the enriched
frame to a one-row summary (`summarize_metrics`) and batches tickers (`main`).

The numerical indicator kernels (`ta.SMA`, `ta.EMA`, `ta.RSI`, `ta.MACD`,
`ta.ATR`, `pynance.tech.simple.growth`, `pynance.tech.movave.volatility`,
`pynance.tech.movave.sma`) are external libraries, not part of the repository;
they are modelled here from the specification's §4.1/§4.2 descriptions.
Arithmetic is carried out in `ℚ` (the spec's recurrences are stated exactly);
the float NaN sentinel is modelled as `none` in `Option ℚ`.
-/

set_option autoImplicit false

namespace TechnicalAnalysis

/-! ## Indicator kernels (modelled from the spec, §4.1/§4.2) -/

/-- Modelled from the spec: `ta.SMA` (external TA-Lib), §4.1.
`Output[i] = mean(close[i-period+1..i])` for `i ≥ period-1`; sentinel
otherwise (entries whose trailing window is not fully available, and every
entry when the period is `0`, are the sentinel, matching TA-Lib's behaviour
of returning an all-NaN column rather than raising). -/
def SMA (close : List ℚ) (k : ℕ) : List (Option ℚ) :=
  (List.range close.length).map fun i =>
    if 1 ≤ k ∧ k ≤ i + 1 then some (((close.drop (i + 1 - k)).take k).sum / k)
    else none

/-- One pass of the exponential-moving-average recursion
`EMA[i] = alpha*close[i] + (1-alpha)*EMA[i-1]`, carrying the previous value. -/
def emaRec (alpha : ℚ) (prev : ℚ) : List ℚ → List ℚ
  | [] => []
  | c :: cs =>
    let e := alpha * c + (1 - alpha) * prev
    e :: emaRec alpha e cs

/-- Modelled from the spec: `ta.EMA` (external TA-Lib), §4.1.
Smoothing factor `alpha = 2/(period+1)`; seed `EMA[period-1] =
SMA(close[0..period-1])`; for `i ≥ period`,
`EMA[i] = alpha*close[i] + (1-alpha)*EMA[i-1]`.  Entries before index
`period-1` are sentinel; a series shorter than the period yields an
all-sentinel column. -/
def EMA (close : List ℚ) (k : ℕ) : List (Option ℚ) :=
  if 1 ≤ k ∧ k ≤ close.length then
    List.replicate (k - 1) none ++
      some ((close.take k).sum / k) ::
        (emaRec (2 / (k + 1)) ((close.take k).sum / k) (close.drop k)).map some
  else List.replicate close.length none

/-- Per-step differences `close[i+1] - close[i]` of a close series. -/
def diffs (close : List ℚ) : List ℚ :=
  (close.zip close.tail).map fun p => p.2 - p.1

/-- One step of Wilder's recursive average
`avg[i] = (avg[i-1]*(period-1) + value[i]) / period` (spec §4.1, RSI). -/
def wilderStep (period : ℕ) (prev v : ℚ) : ℚ :=
  (prev * ((period : ℚ) - 1) + v) / period

/-- Wilder's recursive average, threaded over a list of values. -/
def wilderRec (period : ℕ) (prev : ℚ) : List ℚ → List ℚ
  | [] => []
  | v :: vs =>
    let a := wilderStep period prev v
    a :: wilderRec period a vs

/-- Wilder smoothing of a value series: seed is the simple mean over the
first `period` values (placed at position `period-1` of the value series),
followed by the recursive average (spec §4.1, RSI/ATR). -/
def wilderAvgs (period : ℕ) (vals : List ℚ) : List ℚ :=
  if 1 ≤ period ∧ period ≤ vals.length then
    ((vals.take period).sum / period) ::
      wilderRec period ((vals.take period).sum / period) (vals.drop period)
  else []

/-- `RS = avgGain/avgLoss; RSI = 100 - 100/(1+RS)`, with the division by
zero special-cased: if `avgLoss` is exactly `0`, `RSI = 100` (spec §4.1). -/
def rsiOf (g l : ℚ) : ℚ :=
  if l = 0 then 100 else 100 - 100 / (1 + g / l)

/-- Modelled from the spec: `ta.RSI` (external TA-Lib), §4.1.
Wilder's relative strength index over the per-step gains
`max(close[i]-close[i-1],0)` and losses `max(close[i-1]-close[i],0)`.
Sentinel for indices before `period` differences are available; an
insufficient history yields an all-sentinel column, no exception. -/
def RSI (close : List ℚ) (period : ℕ) : List (Option ℚ) :=
  if period = 0 then List.replicate close.length none
  else
    List.replicate (min close.length period) none ++
      List.zipWith (fun g l => some (rsiOf g l))
        (wilderAvgs period ((diffs close).map fun d => max d 0))
        (wilderAvgs period ((diffs close).map fun d => max (-d) 0))

/-- Elementwise subtraction of two sentinel-carrying columns: defined only
where both operands are defined. -/
def sub2 : Option ℚ → Option ℚ → Option ℚ
  | some a, some b => some (a - b)
  | _, _ => none

/-- Modelled from the spec: the MACD line of `ta.MACD` (external TA-Lib),
§4.1: `EMA(close,fast) - EMA(close,slow)`, elementwise once both EMAs are
defined; sentinel until both are defined. -/
def macdLine (close : List ℚ) (fast slow : ℕ) : List (Option ℚ) :=
  List.zipWith sub2 (EMA close fast) (EMA close slow)

/-- Modelled from the spec: the MACD signal line of `ta.MACD` (external
TA-Lib), §4.1: `EMA(macdLine, signal)` treating sentinel-valued leading
entries as absent from the EMA seed window; re-aligned with leading
sentinels. -/
def signalLine (close : List ℚ) (fast slow signal : ℕ) : List (Option ℚ) :=
  List.replicate
      ((macdLine close fast slow).length -
        ((macdLine close fast slow).filterMap id).length) none ++
    EMA ((macdLine close fast slow).filterMap id) signal

/-- Modelled from the spec: the MACD histogram of `ta.MACD` (external
TA-Lib), §4.1: `macdLine - signalLine`, elementwise wherever both are
defined. -/
def macdHist (close : List ℚ) (fast slow signal : ℕ) : List (Option ℚ) :=
  List.zipWith sub2 (macdLine close fast slow) (signalLine close fast slow signal)

/-- Modelled from the spec: `ta.MACD` (external TA-Lib), §4.1.  Returns the
triple (macd line, signal line, histogram). -/
def MACD (close : List ℚ) (fast slow signal : ℕ) :
    List (Option ℚ) × List (Option ℚ) × List (Option ℚ) :=
  (macdLine close fast slow, signalLine close fast slow signal,
    macdHist close fast slow signal)

/-- True range (spec §4.1, ATR): `TR[0] = high[0]-low[0]`; for `i ≥ 1`,
`TR[i] = max(high[i]-low[i], |high[i]-close[i-1]|, |low[i]-close[i-1]|)`. -/
def trAt (high low close : List ℚ) (i : ℕ) : ℚ :=
  if i = 0 then high.getD 0 0 - low.getD 0 0
  else
    max (high.getD i 0 - low.getD i 0)
      (max |high.getD i 0 - close.getD (i - 1) 0|
        |low.getD i 0 - close.getD (i - 1) 0|)

/-- Modelled from the spec: `ta.ATR` (external TA-Lib), §4.1.
Wilder-smoothed true range with the same seed/recursive-average policy as
RSI's averages; insufficient history yields an all-sentinel column. -/
def ATR (high low close : List ℚ) (period : ℕ) : List (Option ℚ) :=
  if 1 ≤ period ∧ period ≤ close.length then
    List.replicate (period - 1) none ++
      (wilderAvgs period ((List.range close.length).map (trAt high low close))).map
        some
  else List.replicate close.length none

/-- Modelled from the spec: `pynance.tech.simple.growth` (external PyNance),
§4.2: `Output[i] = (close[i] - close[i-n]) / close[i-n]` for `i ≥ n`;
sentinel otherwise. -/
def growth (close : List ℚ) (n : ℕ) : List (Option ℚ) :=
  (List.range close.length).map fun i =>
    if 1 ≤ n ∧ n ≤ i then
      some ((close.getD i 0 - close.getD (i - n) 0) / close.getD (i - n) 0)
    else none

/-- Modelled from the spec: `pynance.tech.movave.volatility` (external
PyNance), §4.2: rolling sample standard deviation (ddof = 1) of `close` over
a trailing window; sentinel for `i < window-1`.  The value is represented by
the rolling sample variance (the square of the standard deviation) so that
the computation stays inside `ℚ`; every property checked in this development
depends only on which entries are defined, which is identical. -/
def volatility (close : List ℚ) (w : ℕ) : List (Option ℚ) :=
  (List.range close.length).map fun i =>
    if 2 ≤ w ∧ w ≤ i + 1 then
      some
        ((((close.drop (i + 1 - w)).take w).map fun x =>
              (x - ((close.drop (i + 1 - w)).take w).sum / w) ^ 2).sum /
          ((w : ℚ) - 1))
    else none

/-- Modelled from the spec: `pynance.tech.movave.sma` (external PyNance),
§4.2: identical algorithm to `SMA`, kept as a distinct named operation. -/
def movingAverage (close : List ℚ) (w : ℕ) : List (Option ℚ) :=
  SMA close w

/-! ## Data model: price series, enriched frame -/

/-- One ticker's date-ordered OHLCV series (spec §3).  `load_price_data`
coerces all five value columns to numeric and drops every row whose `Close`
is missing, so `Close` entries are always defined; `Open` and `Volume`
entries may individually be the NaN sentinel.  `High` and `Low` are modelled
as defined, as the spec's ATR reads them unconditionally. -/
structure PriceSeries where
  Open : List (Option ℚ)
  High : List ℚ
  Low : List ℚ
  Close : List ℚ
  Volume : List (Option ℚ)
deriving DecidableEq, Repr

/-- The (possibly enriched) DataFrame: the OHLCV base plus the indicator
columns added so far, in insertion order. -/
structure Frame where
  base : PriceSeries
  cols : List (String × List (Option ℚ))
deriving DecidableEq, Repr

/-- `df[name] = column`: appends a fresh named column (all names used by the
script are fresh). -/
def Frame.setCol (f : Frame) (name : String) (v : List (Option ℚ)) : Frame :=
  { f with cols := f.cols ++ [(name, v)] }

/-- Number of rows of the frame (one per input date). -/
def Frame.nRows (f : Frame) : ℕ :=
  f.base.Close.length

/-- `compute_talib_indicators` (run_technical_analysis.py:37-51): adds the
seven TA-Lib columns, in source order, to the frame it is given. -/
def compute_talib_indicators (f : Frame) : Frame :=
  ((((((f.setCol "SMA_20" (SMA f.base.Close 20)).setCol "EMA_50"
                  (EMA f.base.Close 50)).setCol
              "RSI_14" (RSI f.base.Close 14)).setCol
            "MACD" (MACD f.base.Close 12 26 9).1).setCol
          "MACD_SIGNAL" (MACD f.base.Close 12 26 9).2.1).setCol
        "MACD_HIST" (MACD f.base.Close 12 26 9).2.2).setCol
    "ATR_14" (ATR f.base.High f.base.Low f.base.Close 14)

/-- `compute_pynance_metrics` (run_technical_analysis.py:54-68): adds the
three PyNance columns, in source order, to the frame it is given. -/
def compute_pynance_metrics (f : Frame) : Frame :=
  ((f.setCol "PN_GROWTH_5" (growth f.base.Close 5)).setCol "PN_VOL_20"
      (volatility f.base.Close 20)).setCol
    "PN_MOVAVE_10" (movingAverage f.base.Close 10)

/-- A bare frame holding one price series and no indicator columns yet. -/
def initFrame (ps : PriceSeries) : Frame :=
  ⟨ps, []⟩

/-- The value-level composition of the two enrichment passes. -/
def enrich (f : Frame) : Frame :=
  compute_pynance_metrics (compute_talib_indicators f)

/-- The full pipeline on one price series. -/
def runPipeline (ps : PriceSeries) : Frame :=
  enrich (initFrame ps)

/-- Python object semantics of the two enrichment calls: each statement
`df[c] = column` mutates the DataFrame object in place, so the net effect of
`compute_talib_indicators(df); compute_pynance_metrics(df)` on the heap is
to overwrite the frame stored at the argument's reference with its enriched
version, returning the same reference. -/
def runPipelineInPlace (h : List Frame) (r : ℕ) : List Frame × ℕ :=
  match h[r]? with
  | none => (h, r)
  | some f => (h.set r (enrich f), r)

/-! ## Summary extraction (`summarize_metrics`, lines 105-117) -/

/-- Whether the cell at row `i` of a column is present and non-sentinel. -/
def defAt (col : List (Option ℚ)) (i : ℕ) : Bool :=
  match col[i]? with
  | some (some _) => true
  | _ => false

/-- The cell at row `i` of a column (`none` both past the end and at a
sentinel). -/
def cellAt (col : List (Option ℚ)) (i : ℕ) : Option ℚ :=
  match col[i]? with
  | some v => v
  | none => none

/-- All columns of the DataFrame, in order: the five OHLCV columns followed
by the indicator columns added so far.  `df.dropna()` filters on every one
of these. -/
def Frame.allColumns (f : Frame) : List (List (Option ℚ)) :=
  f.base.Open :: f.base.High.map some :: f.base.Low.map some ::
    f.base.Close.map some :: f.base.Volume :: f.cols.map Prod.snd

/-- Row `i` survives `df.dropna()`: every column's cell at `i` is defined. -/
def Frame.rowComplete (f : Frame) (i : ℕ) : Bool :=
  f.allColumns.all fun c => defAt c i

/-- Backward scan for the greatest complete row index below `m`. -/
def lastCompleteAux (f : Frame) : ℕ → Option ℕ
  | 0 => none
  | j + 1 => if f.rowComplete j then some j else lastCompleteAux f j

/-- Index of the row selected by `df.dropna().iloc[-1]`: the last row kept
by `dropna`, i.e. the greatest row index at which every column is
non-sentinel. -/
def lastCompleteRow (f : Frame) : Option ℕ :=
  lastCompleteAux f f.nRows

/-- Column lookup by name among the added indicator columns
(`latest.get("SMA_20")` and friends). -/
def Frame.getCol (f : Frame) (name : String) : List (Option ℚ) :=
  match f.cols.find? fun p => p.1 == name with
  | some p => p.2
  | none => []

/-- The per-ticker summary record assembled by `summarize_metrics`. -/
structure SummaryRecord where
  ticker : String
  close : Option ℚ
  sma_20 : Option ℚ
  ema_50 : Option ℚ
  rsi_14 : Option ℚ
  macd_hist : Option ℚ
  atr_14 : Option ℚ
  pn_growth_5 : Option ℚ
  pn_vol_20 : Option ℚ
deriving DecidableEq, Repr

/-- `summarize_metrics` (run_technical_analysis.py:105-117):
`latest = df.dropna().iloc[-1]` selects the last row having no sentinel in
any column; with no such row, `iloc[-1]` on the empty frame raises
`IndexError`, modelled as `none`. -/
def summarize_metrics (f : Frame) (ticker : String) : Option SummaryRecord :=
  (lastCompleteRow f).map fun i =>
    { ticker := ticker
      close := cellAt (f.base.Close.map some) i
      sma_20 := cellAt (f.getCol "SMA_20") i
      ema_50 := cellAt (f.getCol "EMA_50") i
      rsi_14 := cellAt (f.getCol "RSI_14") i
      macd_hist := cellAt (f.getCol "MACD_HIST") i
      atr_14 := cellAt (f.getCol "ATR_14") i
      pn_growth_5 := cellAt (f.getCol "PN_GROWTH_5") i
      pn_vol_20 := cellAt (f.getCol "PN_VOL_20") i }

/-! ## Batch driver (`main`, lines 120-141) -/

/-- One loop iteration of `main` for a ticker: enrich its frame and
summarize it (`none` models the uncaught `IndexError`). -/
def runTicker (ticker : String) (ps : PriceSeries) : Option SummaryRecord :=
  summarize_metrics (runPipeline ps) ticker

/-- The `main` loop over the price files: tickers are processed in order,
each appending its summary; `main` has no per-ticker exception handling, so
a failing `summarize_metrics` propagates and aborts the whole run
(`Except.error` carries the failing ticker). -/
def mainLoop : List (String × PriceSeries) → Except String (List SummaryRecord)
  | [] => Except.ok []
  | (t, ps) :: rest =>
    match runTicker t ps with
    | none => Except.error t
    | some r => (mainLoop rest).map fun l => r :: l

/-! ## Length lemmas -/

theorem emaRec_length (alpha prev : ℚ) (cs : List ℚ) :
    (emaRec alpha prev cs).length = cs.length := by
  induction cs generalizing prev with
  | nil => rfl
  | cons c cs ih => simp [emaRec, ih]

theorem SMA_length (close : List ℚ) (k : ℕ) :
    (SMA close k).length = close.length := by
  simp [SMA]

theorem EMA_length (close : List ℚ) (k : ℕ) :
    (EMA close k).length = close.length := by
  unfold EMA
  split
  · rename_i h
    simp [emaRec_length]
    omega
  · simp

theorem wilderRec_length (period : ℕ) (prev : ℚ) (vs : List ℚ) :
    (wilderRec period prev vs).length = vs.length := by
  induction vs generalizing prev with
  | nil => rfl
  | cons v vs ih => simp [wilderRec, ih]

theorem wilderAvgs_length (period : ℕ) (vals : List ℚ) :
    (wilderAvgs period vals).length =
      if 1 ≤ period ∧ period ≤ vals.length then vals.length - period + 1
      else 0 := by
  unfold wilderAvgs
  split
  · rename_i h
    simp [wilderRec_length, h]
  · rename_i h
    simp [h]

theorem diffs_length (close : List ℚ) :
    (diffs close).length = close.length - 1 := by
  cases close with
  | nil => rfl
  | cons c cs => simp [diffs]

theorem RSI_length (close : List ℚ) (period : ℕ) :
    (RSI close period).length = close.length := by
  unfold RSI
  split
  · simp
  · rename_i hper
    simp [wilderAvgs_length, diffs_length]
    split
    · rename_i h
      omega
    · rename_i h
      omega

theorem macdLine_length (close : List ℚ) (fast slow : ℕ) :
    (macdLine close fast slow).length = close.length := by
  simp [macdLine, EMA_length]

theorem signalLine_length (close : List ℚ) (fast slow signal : ℕ) :
    (signalLine close fast slow signal).length = close.length := by
  have hle := List.length_filterMap_le (id : Option ℚ → Option ℚ)
      (macdLine close fast slow)
  simp [signalLine, EMA_length, macdLine_length]
  have := macdLine_length close fast slow
  omega

theorem macdHist_length (close : List ℚ) (fast slow signal : ℕ) :
    (macdHist close fast slow signal).length = close.length := by
  simp [macdHist, macdLine_length, signalLine_length]

theorem ATR_length (high low close : List ℚ) (period : ℕ) :
    (ATR high low close period).length = close.length := by
  unfold ATR
  split
  · rename_i h
    simp [wilderAvgs_length, h]
    omega
  · simp

theorem growth_length (close : List ℚ) (n : ℕ) :
    (growth close n).length = close.length := by
  simp [growth]

theorem volatility_length (close : List ℚ) (w : ℕ) :
    (volatility close w).length = close.length := by
  simp [volatility]

theorem movingAverage_length (close : List ℚ) (w : ℕ) :
    (movingAverage close w).length = close.length := by
  simp [movingAverage, SMA_length]

/-! ## Pointwise lemmas for SMA -/

theorem SMA_getElem (close : List ℚ) (k i : ℕ) (hi : i < close.length) :
    (SMA close k)[i]? =
      some (if 1 ≤ k ∧ k ≤ i + 1
        then some (((close.drop (i + 1 - k)).take k).sum / k)
        else none) := by
  simp [SMA, List.getElem?_map, List.getElem?_range hi]

theorem take_sum_eq_range_sum (l : List ℚ) :
    ∀ k, k ≤ l.length →
      (l.take k).sum = ((List.range k).map fun j => l.getD j 0).sum := by
  intro k
  induction k with
  | zero => simp
  | succ k ih =>
    intro hk
    have hk' : k ≤ l.length := Nat.le_of_succ_le hk
    have hget : l[k]? = some (l.getD k 0) := by
      rw [List.getElem?_eq_getElem (by omega)]
      simp [List.getD, List.getElem?_eq_getElem (show k < l.length by omega)]
    rw [List.take_succ, List.sum_append, ih hk', List.range_succ, List.map_append,
      List.sum_append, hget]
    simp

theorem drop_getD (l : List ℚ) (m j : ℕ) :
    (l.drop m).getD j 0 = l.getD (m + j) 0 := by
  have h1 : (l.drop m)[j]? = l[m + j]? := List.getElem?_drop l m j
  simp [List.getD, h1]

/-! ## Pointwise lemmas for EMA -/

theorem emaRec_getElem_zero (alpha p c : ℚ) (cs : List ℚ) :
    (emaRec alpha p (c :: cs))[0]? = some (alpha * c + (1 - alpha) * p) := by
  simp [emaRec]

theorem emaRec_getElem_succ (alpha : ℚ) (cs : List ℚ) :
    ∀ (j : ℕ) (p : ℚ), j + 1 < cs.length →
      (emaRec alpha p cs)[j + 1]? =
        some (alpha * cs.getD (j + 1) 0 +
          (1 - alpha) * (emaRec alpha p cs).getD j 0) := by
  induction cs with
  | nil => intro j p h; simp at h
  | cons c cs ih =>
    intro j p hj
    match j with
    | 0 =>
      match cs, hj with
      | c2 :: cs2, _ =>
        simp [emaRec, List.getD]
    | j + 1 =>
      have hj' : j + 1 < cs.length := by simpa using hj
      have := ih j (alpha * c + (1 - alpha) * p) hj'
      simpa [emaRec, List.getD] using this

theorem getElem?_getD (l : List ℚ) (i : ℕ) (h : i < l.length) :
    l[i]? = some (l.getD i 0) := by
  rw [List.getElem?_eq_getElem h]
  rw [List.getD_eq_getElem?_getD, List.getElem?_eq_getElem h]
  rfl

theorem EMA_getElem_lt (close : List ℚ) (k i : ℕ) (hk : 1 ≤ k)
    (hn : k ≤ close.length) (hi : i < k - 1) :
    (EMA close k)[i]? = some none := by
  unfold EMA
  rw [if_pos ⟨hk, hn⟩]
  rw [List.getElem?_append_left (by simp; omega)]
  simp [List.getElem?_replicate, hi]

theorem EMA_getElem_seed (close : List ℚ) (k : ℕ) (hk : 1 ≤ k)
    (hn : k ≤ close.length) :
    (EMA close k)[k - 1]? = some (some ((close.take k).sum / k)) := by
  unfold EMA
  rw [if_pos ⟨hk, hn⟩]
  rw [List.getElem?_append_right (by simp)]
  simp

theorem EMA_getElem_rec (close : List ℚ) (k i : ℕ) (hk : 1 ≤ k) (hik : k ≤ i)
    (hin : i < close.length) :
    ∃ e p, (EMA close k)[i]? = some (some e) ∧
      (EMA close k)[i - 1]? = some (some p) ∧
      e = 2 / ((k : ℚ) + 1) * close.getD i 0 + (1 - 2 / ((k : ℚ) + 1)) * p := by
  set alpha : ℚ := 2 / ((k : ℚ) + 1) with halpha
  set s : ℚ := (close.take k).sum / k with hs
  have hEMA : EMA close k =
      List.replicate (k - 1) none ++
        some s :: (emaRec alpha s (close.drop k)).map some := by
    unfold EMA
    rw [if_pos ⟨hk, Nat.le_of_lt (Nat.lt_of_le_of_lt hik hin)⟩]
  have hdroplen : (close.drop k).length = close.length - k := by simp
  have hRlen : (emaRec alpha s (close.drop k)).length = close.length - k := by
    rw [emaRec_length]; exact hdroplen
  rcases Nat.lt_or_ge k i with hgt | hle
  · -- i > k: both entries land inside the recursive tail
    have hidx : (EMA close k)[i]? =
        ((emaRec alpha s (close.drop k)).map some)[i - k]? := by
      rw [hEMA, List.getElem?_append_right (by simp; omega)]
      have : i - (k - 1) = (i - k) + 1 := by omega
      rw [List.length_replicate, this, List.getElem?_cons_succ]
    have hidx1 : (EMA close k)[i - 1]? =
        ((emaRec alpha s (close.drop k)).map some)[i - 1 - k]? := by
      rw [hEMA, List.getElem?_append_right (by simp; omega)]
      have : i - 1 - (k - 1) = (i - 1 - k) + 1 := by omega
      rw [List.length_replicate, this, List.getElem?_cons_succ]
    have hsub : i - k = (i - k - 1) + 1 := by omega
    have hlt : (i - k - 1) + 1 < (close.drop k).length := by
      rw [hdroplen]; omega
    have hrec := emaRec_getElem_succ alpha (close.drop k) (i - k - 1) s hlt
    refine ⟨alpha * (close.drop k).getD (i - k - 1 + 1) 0 +
        (1 - alpha) * (emaRec alpha s (close.drop k)).getD (i - k - 1) 0,
      (emaRec alpha s (close.drop k)).getD (i - k - 1) 0, ?_, ?_, ?_⟩
    · rw [hidx, hsub]
      rw [List.getElem?_map, hrec]
      rfl
    · have hlt1 : i - 1 - k < (emaRec alpha s (close.drop k)).length := by
        rw [hRlen]; omega
      rw [hidx1, List.getElem?_map, getElem?_getD _ _ hlt1]
      have : i - 1 - k = i - k - 1 := by omega
      rw [this]
      rfl
    · rw [drop_getD]
      have : k + (i - k - 1 + 1) = i := by omega
      rw [this]
  · -- i = k: the previous entry is the seed
    have hik' : i = k := Nat.le_antisymm hle hik
    subst hik'
    have hne : close.drop i ≠ [] := by
      intro hc
      have := congrArg List.length hc
      simp at this
      omega
    obtain ⟨r0, rest, hr⟩ := List.exists_cons_of_ne_nil hne
    have hidx : (EMA close i)[i]? =
        ((emaRec alpha s (close.drop i)).map some)[0]? := by
      rw [hEMA, List.getElem?_append_right
        (by simp only [List.length_replicate]; omega)]
      have : i - (i - 1) = 0 + 1 := by omega
      rw [List.length_replicate, this, List.getElem?_cons_succ]
    refine ⟨alpha * r0 + (1 - alpha) * s, s, ?_, ?_, ?_⟩
    · rw [hidx, List.getElem?_map, hr, emaRec_getElem_zero]
      rfl
    · rw [hEMA, List.getElem?_append_right (by simp)]
      simp
    · have : close.getD i 0 = r0 := by
        have h0 : (close.drop i).getD 0 0 = close.getD (i + 0) 0 := drop_getD close i 0
        rw [hr] at h0
        simpa using h0.symm
      rw [this]

/-! ## Claim theorems: C1 and C2 -/

/-- C1: for every period `k ≥ 1` and close sequence of length `n ≥ k`, the
SMA column has one entry per input row, exactly `k-1` leading sentinel
entries (every index `i < k-1` is sentinel, and index `k-1` is defined), and
for every `i ≥ k-1` entry `i` equals the arithmetic mean of
`close[i-k+1..i]`. -/
theorem sma_leading_sentinels_and_window_mean (close : List ℚ) (k : ℕ)
    (hk : 1 ≤ k) (hn : k ≤ close.length) :
    (SMA close k).length = close.length ∧
    (∀ i, i < k - 1 → (SMA close k)[i]? = some none) ∧
    (∀ i, k - 1 ≤ i → i < close.length →
      (SMA close k)[i]? =
        some (some
          (((List.range k).map fun j => close.getD (i + 1 - k + j) 0).sum / k))) := by
  refine ⟨SMA_length close k, ?_, ?_⟩
  · intro i hi
    rw [SMA_getElem close k i (by omega)]
    have hcond : ¬(1 ≤ k ∧ k ≤ i + 1) := by omega
    simp [hcond]
  · intro i h1 h2
    rw [SMA_getElem close k i h2]
    have hcond : 1 ≤ k ∧ k ≤ i + 1 := by omega
    rw [if_pos hcond]
    have hlen : k ≤ (close.drop (i + 1 - k)).length := by
      simp [List.length_drop]
      omega
    rw [take_sum_eq_range_sum _ k hlen]
    have hmap : ((List.range k).map fun j => (close.drop (i + 1 - k)).getD j 0) =
        ((List.range k).map fun j => close.getD (i + 1 - k + j) 0) :=
      List.map_congr_left fun j _ => drop_getD close (i + 1 - k) j
    rw [hmap]

/-- Witness for C1: the spec's scenario `close = [10..20]`, `k = 5`: entry 3
is sentinel, entry 4 equals `12`, the last entry (index 10) equals `18`. -/
theorem sma_leading_sentinels_and_window_mean_witness :
    (SMA [10, 11, 12, 13, 14, 15, 16, 17, 18, 19, 20] 5)[3]? = some none ∧
    (SMA [10, 11, 12, 13, 14, 15, 16, 17, 18, 19, 20] 5)[4]? = some (some 12) ∧
    (SMA [10, 11, 12, 13, 14, 15, 16, 17, 18, 19, 20] 5)[10]? = some (some 18) := by
  have h := sma_leading_sentinels_and_window_mean
    [10, 11, 12, 13, 14, 15, 16, 17, 18, 19, 20] 5 (by norm_num) (by norm_num)
  refine ⟨h.2.1 3 (by norm_num), ?_, ?_⟩
  · rw [h.2.2 4 (by norm_num) (by norm_num)]
    norm_num [List.range_succ]
  · rw [h.2.2 10 (by norm_num) (by norm_num)]
    norm_num [List.range_succ]

/-- C2: for every period `k ≥ 1` and close sequence of length at least `k`,
the EMA column's entry at index `k-1` (the seed) equals the simple moving
average of `close[0..k-1]` (it coincides with the SMA column there), entries
before index `k-1` are sentinel, and for every defined index `i ≥ k` the
entry satisfies `EMA[i] = alpha*close[i] + (1-alpha)*EMA[i-1]` exactly, with
`alpha = 2/(k+1)`. -/
theorem ema_seed_sma_and_recurrence (close : List ℚ) (k : ℕ) (hk : 1 ≤ k)
    (hn : k ≤ close.length) :
    (EMA close k).length = close.length ∧
    (∀ i, i < k - 1 → (EMA close k)[i]? = some none) ∧
    (EMA close k)[k - 1]? = (SMA close k)[k - 1]? ∧
    (EMA close k)[k - 1]? = some (some ((close.take k).sum / k)) ∧
    (∀ i, k ≤ i → i < close.length → ∃ e p,
      (EMA close k)[i]? = some (some e) ∧
      (EMA close k)[i - 1]? = some (some p) ∧
      e = 2 / ((k : ℚ) + 1) * close.getD i 0 +
        (1 - 2 / ((k : ℚ) + 1)) * p) := by
  refine ⟨EMA_length close k, fun i hi => EMA_getElem_lt close k i hk hn hi, ?_,
    EMA_getElem_seed close k hk hn, fun i h1 h2 => EMA_getElem_rec close k i hk h1 h2⟩
  rw [EMA_getElem_seed close k hk hn, SMA_getElem close k (k - 1) (by omega)]
  have hcond : 1 ≤ k ∧ k ≤ (k - 1) + 1 := by omega
  rw [if_pos hcond]
  have h0 : k - 1 + 1 - k = 0 := by omega
  rw [h0, List.drop_zero]

/-- Witness for C2 at `close = [1,2,3,4]`, `k = 3`: entry 1 is sentinel, the
seed entry (index 2) equals `(1+2+3)/3 = 2` and coincides with the SMA
entry, and entry 3 satisfies the recursion with `alpha = 1/2`. -/
theorem ema_seed_sma_and_recurrence_witness :
    (EMA [1, 2, 3, 4] 3)[1]? = some none ∧
    (EMA [1, 2, 3, 4] 3)[2]? = some (some 2) ∧
    (EMA [1, 2, 3, 4] 3)[2]? = (SMA [1, 2, 3, 4] 3)[2]? ∧
    (∃ e p, (EMA [1, 2, 3, 4] 3)[3]? = some (some e) ∧
      (EMA [1, 2, 3, 4] 3)[2]? = some (some p) ∧
      e = 2 / ((3 : ℚ) + 1) * ([1, 2, 3, 4] : List ℚ).getD 3 0 +
        (1 - 2 / ((3 : ℚ) + 1)) * p) := by
  have h := ema_seed_sma_and_recurrence [1, 2, 3, 4] 3 (by norm_num) (by norm_num)
  refine ⟨h.2.1 1 (by norm_num), ?_, h.2.2.1, h.2.2.2.2 3 (by norm_num) (by norm_num)⟩
  rw [h.2.2.2.1]
  norm_num

/-! ## RSI lemmas -/

theorem mem_of_getElem_eq_some {α : Type} {l : List α} {i : ℕ} {a : α}
    (h : l[i]? = some a) : a ∈ l := by
  obtain ⟨hlt, rfl⟩ := List.getElem?_eq_some.mp h
  exact List.getElem_mem hlt

theorem of_mem_zipWith {α β γ : Type} {f : α → β → γ} {x : γ} :
    ∀ {l1 : List α} {l2 : List β}, x ∈ List.zipWith f l1 l2 →
      ∃ a b, a ∈ l1 ∧ b ∈ l2 ∧ x = f a b := by
  intro l1
  induction l1 with
  | nil => intro l2 h; simp at h
  | cons a l1 ih =>
    intro l2 h
    cases l2 with
    | nil => simp at h
    | cons b l2 =>
      rcases List.mem_cons.mp h with h1 | h2
      · exact ⟨a, b, List.mem_cons_self .., List.mem_cons_self .., h1⟩
      · obtain ⟨a2, b2, ha, hb, hx⟩ := ih h2
        exact ⟨a2, b2, List.mem_cons_of_mem _ ha, List.mem_cons_of_mem _ hb, hx⟩

theorem wilderStep_nonneg (period : ℕ) (prev v : ℚ) (hper : 1 ≤ period)
    (hp : 0 ≤ prev) (hv : 0 ≤ v) : 0 ≤ wilderStep period prev v := by
  unfold wilderStep
  have h1 : (1 : ℚ) ≤ (period : ℚ) := by exact_mod_cast hper
  apply div_nonneg
  · have : (0 : ℚ) ≤ (period : ℚ) - 1 := by linarith
    nlinarith
  · linarith

theorem wilderRec_nonneg (period : ℕ) (hper : 1 ≤ period) :
    ∀ (vs : List ℚ) (prev : ℚ), 0 ≤ prev → (∀ v ∈ vs, 0 ≤ v) →
      ∀ a ∈ wilderRec period prev vs, 0 ≤ a := by
  intro vs
  induction vs with
  | nil => intro prev _ _ a ha; simp [wilderRec] at ha
  | cons v vs ih =>
    intro prev hp hv a ha
    rw [wilderRec] at ha
    have hstep : 0 ≤ wilderStep period prev v :=
      wilderStep_nonneg period prev v hper hp (hv v (List.mem_cons_self ..))
    rcases List.mem_cons.mp ha with h1 | h2
    · simpa [h1]
    · exact ih (wilderStep period prev v) hstep
        (fun w hw => hv w (List.mem_cons_of_mem _ hw)) a h2

theorem wilderAvgs_nonneg (period : ℕ) (vals : List ℚ)
    (hv : ∀ v ∈ vals, 0 ≤ v) : ∀ a ∈ wilderAvgs period vals, 0 ≤ a := by
  intro a ha
  unfold wilderAvgs at ha
  split at ha
  · rename_i h
    have hseed : 0 ≤ (vals.take period).sum / (period : ℚ) := by
      apply div_nonneg
      · exact List.sum_nonneg fun x hx => hv x (List.mem_of_mem_take hx)
      · positivity
    rcases List.mem_cons.mp ha with h1 | h2
    · simpa [h1]
    · exact wilderRec_nonneg period h.1 (vals.drop period) _ hseed
        (fun w hw => hv w (List.mem_of_mem_drop hw)) a h2
  · simp at ha

theorem wilderAvgs_zero (period : ℕ) (vals : List ℚ)
    (hv : ∀ v ∈ vals, v = 0) : ∀ a ∈ wilderAvgs period vals, a = 0 := by
  have hrec : ∀ (vs : List ℚ), (∀ v ∈ vs, v = 0) →
      ∀ a ∈ wilderRec period 0 vs, a = 0 := by
    intro vs
    induction vs with
    | nil => intro _ a ha; simp [wilderRec] at ha
    | cons v vs ih =>
      intro hz a ha
      rw [wilderRec] at ha
      have hv0 : v = 0 := hz v (List.mem_cons_self ..)
      have hstep : wilderStep period 0 v = 0 := by
        simp [wilderStep, hv0]
      rw [hstep] at ha
      rcases List.mem_cons.mp ha with h1 | h2
      · simpa [h1]
      · exact ih (fun w hw => hz w (List.mem_cons_of_mem _ hw)) a h2
  intro a ha
  unfold wilderAvgs at ha
  split at ha
  · rename_i h
    have hseed : (vals.take period).sum / (period : ℚ) = 0 := by
      rw [List.sum_eq_zero fun x hx => hv x (List.mem_of_mem_take hx)]
      simp
    rw [hseed] at ha
    rcases List.mem_cons.mp ha with h1 | h2
    · simpa [h1]
    · exact hrec (vals.drop period) (fun w hw => hv w (List.mem_of_mem_drop hw)) a h2
  · simp at ha

theorem rsiOf_bounds (g l : ℚ) (hg : 0 ≤ g) (hl : 0 ≤ l) :
    0 ≤ rsiOf g l ∧ rsiOf g l ≤ 100 := by
  unfold rsiOf
  split
  · norm_num
  · rename_i hne
    have hlpos : 0 < l := lt_of_le_of_ne hl (Ne.symm hne)
    have hq : 0 ≤ g / l := div_nonneg hg hl
    have h1 : (1 : ℚ) ≤ 1 + g / l := by linarith
    have hpos : (0 : ℚ) < 1 + g / l := by linarith
    constructor
    · have : 100 / (1 + g / l) ≤ 100 := by
        rw [div_le_iff₀ hpos]
        nlinarith
      linarith
    · have : 0 ≤ 100 / (1 + g / l) := by positivity
      linarith

theorem RSI_getElem_defined (close : List ℚ) (period i : ℕ) (x : ℚ)
    (h : (RSI close period)[i]? = some (some x)) :
    ∃ g l, g ∈ wilderAvgs period ((diffs close).map fun d => max d 0) ∧
      l ∈ wilderAvgs period ((diffs close).map fun d => max (-d) 0) ∧
      x = rsiOf g l := by
  unfold RSI at h
  split at h
  · exfalso
    rw [List.getElem?_replicate] at h
    split at h <;> simp at h
  · have hmem : some x ∈
        List.replicate (min close.length period) (none : Option ℚ) ++
          List.zipWith (fun g l => some (rsiOf g l))
            (wilderAvgs period ((diffs close).map fun d => max d 0))
            (wilderAvgs period ((diffs close).map fun d => max (-d) 0)) :=
      mem_of_getElem_eq_some h
    rcases List.mem_append.mp hmem with h1 | h2
    · have := List.eq_of_mem_replicate h1
      simp at this
    · obtain ⟨g, l, hg, hl, hx⟩ := of_mem_zipWith h2
      exact ⟨g, l, hg, hl, by simpa using hx⟩

/-! ## Claim theorem: C3 -/

/-- C3: for every close sequence and period, every non-sentinel entry of the
RSI column lies in `[0, 100]`; and if every per-step difference of the close
series is non-negative (so every Wilder-smoothed average loss is exactly 0),
every non-sentinel entry equals `100` — the `avgGain/avgLoss` division by
zero is special-cased to `100` and never propagates. -/
theorem rsi_bounded_and_all_gain_is_100 (close : List ℚ) (period : ℕ) :
    (∀ (i : ℕ) (x : ℚ), (RSI close period)[i]? = some (some x) →
      0 ≤ x ∧ x ≤ 100) ∧
    ((∀ d ∈ diffs close, 0 ≤ d) →
      ∀ (i : ℕ) (x : ℚ), (RSI close period)[i]? = some (some x) → x = 100) := by
  constructor
  · intro i x h
    obtain ⟨g, l, hg, hl, hx⟩ := RSI_getElem_defined close period i x h
    have hgain : ∀ v ∈ (diffs close).map fun d => max d 0, 0 ≤ v := by
      intro v hv
      obtain ⟨d, _, rfl⟩ := List.mem_map.mp hv
      exact le_max_right d 0
    have hloss : ∀ v ∈ (diffs close).map fun d => max (-d) 0, 0 ≤ v := by
      intro v hv
      obtain ⟨d, _, rfl⟩ := List.mem_map.mp hv
      exact le_max_right (-d) 0
    have h1 := wilderAvgs_nonneg period _ hgain g hg
    have h2 := wilderAvgs_nonneg period _ hloss l hl
    rw [hx]
    exact rsiOf_bounds g l h1 h2
  · intro hmono i x h
    obtain ⟨g, l, hg, hl, hx⟩ := RSI_getElem_defined close period i x h
    have hzero : ∀ v ∈ (diffs close).map fun d => max (-d) 0, v = 0 := by
      intro v hv
      obtain ⟨d, hd, rfl⟩ := List.mem_map.mp hv
      have : -d ≤ 0 := by linarith [hmono d hd]
      simpa [max_eq_right this]
    have hl0 : l = 0 := wilderAvgs_zero period _ hzero l hl
    rw [hx, hl0]
    simp [rsiOf]

/-- Witness for C3: a strictly increasing 16-bar close series with RSI
period 14: entry 14 is defined, equals `100`, and is inside `[0, 100]`. -/
theorem rsi_bounded_and_all_gain_is_100_witness :
    (RSI [1, 2, 3, 4, 5, 6, 7, 8, 9, 10, 11, 12, 13, 14, 15, 16] 14)[14]? =
      some (some 100) ∧
    (0 : ℚ) ≤ 100 ∧ (100 : ℚ) ≤ 100 := by
  have hval : (RSI [1, 2, 3, 4, 5, 6, 7, 8, 9, 10, 11, 12, 13, 14, 15, 16]
      14)[14]? = some (some 100) := by
    norm_num [RSI, diffs, wilderAvgs, wilderRec, wilderStep, rsiOf,
      List.zipWith]
    rfl
  exact ⟨hval,
    (rsi_bounded_and_all_gain_is_100
      [1, 2, 3, 4, 5, 6, 7, 8, 9, 10, 11, 12, 13, 14, 15, 16] 14).1 14 100 hval⟩

/-! ## Claim theorem: C9 -/

theorem SMA_short (close : List ℚ) (k : ℕ) (h : close.length < k) :
    SMA close k = List.replicate close.length none := by
  apply List.ext_getElem?
  intro i
  by_cases hi : i < close.length
  · rw [SMA_getElem close k i hi]
    have hcond : ¬(1 ≤ k ∧ k ≤ i + 1) := by omega
    simp [hcond, List.getElem?_replicate, hi]
  · rw [List.getElem?_eq_none (by rw [SMA_length]; omega),
      List.getElem?_eq_none (by rw [List.length_replicate]; omega)]

theorem EMA_short (close : List ℚ) (k : ℕ) (h : close.length < k) :
    EMA close k = List.replicate close.length none := by
  unfold EMA
  rw [if_neg (by omega)]

theorem RSI_short (close : List ℚ) (k : ℕ) (h : close.length < k) :
    RSI close k = List.replicate close.length none := by
  unfold RSI
  split
  · rfl
  · rename_i hper
    have hlen : (diffs close).length < k := by
      rw [diffs_length]; omega
    have hw1 : wilderAvgs k ((diffs close).map fun d => max d 0) = [] := by
      unfold wilderAvgs
      rw [if_neg (by simp; omega)]
    have hw2 : wilderAvgs k ((diffs close).map fun d => max (-d) 0) = [] := by
      unfold wilderAvgs
      rw [if_neg (by simp; omega)]
    rw [hw1, hw2]
    have hmin : min close.length k = close.length := by omega
    simp [hmin]

/-! ## MACD lemmas and claim theorem C4 -/

theorem getElem?_zipWith_some {α β γ : Type} (f : α → β → γ) :
    ∀ (l1 : List α) (l2 : List β) (i : ℕ) (a : α) (b : β),
      l1[i]? = some a → l2[i]? = some b →
      (List.zipWith f l1 l2)[i]? = some (f a b) := by
  intro l1
  induction l1 with
  | nil => intro l2 i a b h1 _; simp at h1
  | cons x l1 ih =>
    intro l2 i a b h1 h2
    cases l2 with
    | nil => simp at h2
    | cons y l2 =>
      cases i with
      | zero =>
        simp only [List.getElem?_cons_zero, Option.some.injEq] at h1 h2
        simp [List.zipWith_cons_cons, h1, h2]
      | succ i =>
        simp only [List.getElem?_cons_succ] at h1 h2
        simpa [List.zipWith_cons_cons] using ih l2 i a b h1 h2

/-- C4: for every close sequence, at every index where both the MACD line
and the signal line of `MACD(close, 12, 26, 9)` are non-sentinel, the
histogram entry equals the MACD entry minus the signal entry. -/
theorem macd_hist_is_line_minus_signal (close : List ℚ) (i : ℕ) (a b : ℚ)
    (ha : (MACD close 12 26 9).1[i]? = some (some a))
    (hb : (MACD close 12 26 9).2.1[i]? = some (some b)) :
    (MACD close 12 26 9).2.2[i]? = some (some (a - b)) := by
  have h := getElem?_zipWith_some sub2 (macdLine close 12 26)
    (signalLine close 12 26 9) i (some a) (some b) ha hb
  simpa [MACD, macdHist, sub2] using h

/-- Witness for C4 on a constant 34-bar close series: at index 33 the MACD
line and signal line are both defined (both `0`) and the histogram equals
their difference. -/
theorem macd_hist_is_line_minus_signal_witness :
    (MACD [1, 1, 1, 1, 1, 1, 1, 1, 1, 1, 1, 1, 1, 1, 1, 1, 1, 1, 1, 1, 1, 1,
        1, 1, 1, 1, 1, 1, 1, 1, 1, 1, 1, 1] 12 26 9).1[33]? = some (some 0) ∧
    (MACD [1, 1, 1, 1, 1, 1, 1, 1, 1, 1, 1, 1, 1, 1, 1, 1, 1, 1, 1, 1, 1, 1,
        1, 1, 1, 1, 1, 1, 1, 1, 1, 1, 1, 1] 12 26 9).2.1[33]? = some (some 0) ∧
    (MACD [1, 1, 1, 1, 1, 1, 1, 1, 1, 1, 1, 1, 1, 1, 1, 1, 1, 1, 1, 1, 1, 1,
        1, 1, 1, 1, 1, 1, 1, 1, 1, 1, 1, 1] 12 26 9).2.2[33]? =
      some (some (0 - 0)) := by
  have ha : (MACD [1, 1, 1, 1, 1, 1, 1, 1, 1, 1, 1, 1, 1, 1, 1, 1, 1, 1, 1,
      1, 1, 1, 1, 1, 1, 1, 1, 1, 1, 1, 1, 1, 1, 1] 12 26 9).1[33]? =
      some (some 0) := by
    norm_num [MACD, macdLine, EMA, emaRec, sub2, List.zipWith]
  have hb : (MACD [1, 1, 1, 1, 1, 1, 1, 1, 1, 1, 1, 1, 1, 1, 1, 1, 1, 1, 1,
      1, 1, 1, 1, 1, 1, 1, 1, 1, 1, 1, 1, 1, 1, 1] 12 26 9).2.1[33]? =
      some (some 0) := by
    norm_num [MACD, signalLine, macdLine, EMA, emaRec, sub2, List.zipWith,
      List.filterMap_cons, List.filterMap_nil, id]
    rfl
  exact ⟨ha, hb, macd_hist_is_line_minus_signal _ 33 0 0 ha hb⟩

/-! ## Structural lemmas for the MACD columns -/

theorem sub2_none_right (x : Option ℚ) : sub2 x none = none := by
  cases x <;> rfl

theorem sub2_none_left (y : Option ℚ) : sub2 none y = none := by
  cases y <;> rfl

theorem zipWith_sub2_replicate_none_right :
    ∀ (l : List (Option ℚ)) (m : ℕ),
      List.zipWith sub2 l (List.replicate m none) =
        List.replicate (min l.length m) none := by
  intro l
  induction l with
  | nil => intro m; simp
  | cons x l ih =>
    intro m
    cases m with
    | zero => simp
    | succ m =>
      simp only [List.replicate_succ, List.zipWith_cons_cons, ih,
        sub2_none_right, List.length_cons, Nat.succ_min_succ]

theorem zipWith_sub2_replicate_none_left :
    ∀ (l : List (Option ℚ)) (m : ℕ),
      List.zipWith sub2 (List.replicate m none) l =
        List.replicate (min m l.length) none := by
  intro l
  induction l with
  | nil => intro m; simp
  | cons x l ih =>
    intro m
    cases m with
    | zero => simp
    | succ m =>
      simp only [List.replicate_succ, List.zipWith_cons_cons, ih,
        sub2_none_left, List.length_cons, Nat.succ_min_succ]

theorem zipWith_sub2_map_some :
    ∀ (xs ys : List ℚ),
      List.zipWith sub2 (xs.map some) (ys.map some) =
        (List.zipWith (fun a b => a - b) xs ys).map some := by
  intro xs
  induction xs with
  | nil => intro ys; simp
  | cons x xs ih =>
    intro ys
    cases ys with
    | nil => simp
    | cons y ys => simp [sub2, ih]

theorem filterMap_id_replicate_none (m : ℕ) :
    (List.replicate m (none : Option ℚ)).filterMap id = [] := by
  induction m with
  | zero => rfl
  | succ m ih => simp [List.replicate_succ, List.filterMap_cons, ih]

theorem filterMap_id_map_some (l : List ℚ) :
    (l.map some).filterMap id = l := by
  induction l with
  | nil => rfl
  | cons x l ih => simp [List.filterMap_cons, ih]

theorem EMA_shape (close : List ℚ) (k : ℕ) (h1 : 1 ≤ k)
    (h2 : k ≤ close.length) :
    ∃ A : List ℚ, EMA close k = List.replicate (k - 1) none ++ A.map some ∧
      A.length = close.length - (k - 1) := by
  refine ⟨((close.take k).sum / k) ::
    emaRec (2 / (k + 1)) ((close.take k).sum / k) (close.drop k), ?_, ?_⟩
  · unfold EMA
    rw [if_pos ⟨h1, h2⟩]
    simp [List.map_cons]
  · simp [emaRec_length]
    omega

theorem macdLine_eq_append (close : List ℚ) (h : 26 ≤ close.length) :
    ∃ M : List ℚ, macdLine close 12 26 = List.replicate 25 none ++ M.map some ∧
      M.length = close.length - 25 := by
  obtain ⟨A, hAeq, hAlen⟩ := EMA_shape close 12 (by norm_num) (by omega)
  obtain ⟨B, hBeq, hBlen⟩ := EMA_shape close 26 (by norm_num) (by omega)
  refine ⟨List.zipWith (fun a b => a - b) (A.drop 14) B, ?_, ?_⟩
  · unfold macdLine
    rw [hAeq, hBeq]
    have hsplit : A.map some = (A.take 14).map some ++ (A.drop 14).map some := by
      rw [← List.map_append, List.take_append_drop]
    have hrep : (List.replicate 25 (none : Option ℚ)) =
        List.replicate 11 none ++ List.replicate 14 none := by
      rw [← List.replicate_add]
    rw [hsplit, hrep, List.append_assoc]
    rw [List.zipWith_append _ _ _ _ _ (by simp)]
    rw [zipWith_sub2_replicate_none_left]
    have htake : ((A.take 14).map some).length = 14 := by
      simp [List.length_take]
      omega
    rw [List.zipWith_append _ _ _ _ _ (by rw [htake]; simp)]
    rw [zipWith_sub2_replicate_none_right, zipWith_sub2_map_some, htake]
    simp [List.append_assoc]
  · simp [List.length_zipWith, hAlen, hBlen]
    omega

theorem macdLine_all_none (close : List ℚ) (h : close.length < 26) :
    macdLine close 12 26 = List.replicate close.length none := by
  unfold macdLine
  rw [EMA_short close 26 h, zipWith_sub2_replicate_none_right]
  simp [EMA_length]

theorem signalLine_shape (close : List ℚ) (h : 26 ≤ close.length) :
    ∃ M : List ℚ, signalLine close 12 26 9 = List.replicate 25 none ++ EMA M 9 ∧
      M.length = close.length - 25 := by
  obtain ⟨M, hMeq, hMlen⟩ := macdLine_eq_append close h
  refine ⟨M, ?_, hMlen⟩
  unfold signalLine
  rw [hMeq, List.filterMap_append, filterMap_id_replicate_none,
    filterMap_id_map_some]
  have hlen : (List.replicate 25 (none : Option ℚ) ++ M.map some).length -
      M.length = 25 := by
    simp
    omega
  rw [List.nil_append, hlen]

theorem signalLine_short (close : List ℚ) (h : close.length < 26) :
    signalLine close 12 26 9 = List.replicate close.length none := by
  unfold signalLine
  rw [macdLine_all_none close h, filterMap_id_replicate_none]
  have hEMA : EMA ([] : List ℚ) 9 = [] := by
    unfold EMA
    rw [if_neg (by simp)]
    rfl
  rw [hEMA]
  simp

/-! ## Warm-up (leading sentinel) lemmas, one per pipeline column -/

theorem getElem?_isSome_of_lt {l : List (Option ℚ)} {i : ℕ}
    (h : i < l.length) : ∃ v, l[i]? = some v :=
  ⟨l[i], List.getElem?_eq_getElem h⟩

theorem SMA_warmup (close : List ℚ) (k i : ℕ) (hik : i < k - 1)
    (hin : i < close.length) : (SMA close k)[i]? = some none := by
  rw [SMA_getElem close k i hin]
  have hcond : ¬(1 ≤ k ∧ k ≤ i + 1) := by omega
  simp [hcond]

theorem EMA_warmup (close : List ℚ) (k i : ℕ) (hik : i < k - 1)
    (hin : i < close.length) : (EMA close k)[i]? = some none := by
  by_cases hkn : k ≤ close.length
  · exact EMA_getElem_lt close k i (by omega) hkn hik
  · rw [EMA_short close k (by omega), List.getElem?_replicate, if_pos hin]

theorem RSI_warmup (close : List ℚ) (period i : ℕ) (hik : i < period)
    (hin : i < close.length) : (RSI close period)[i]? = some none := by
  unfold RSI
  split
  · rw [List.getElem?_replicate, if_pos hin]
  · rw [List.getElem?_append_left (by simp only [List.length_replicate]; omega)]
    rw [List.getElem?_replicate, if_pos (by omega)]

theorem macdLine_warmup (close : List ℚ) (i : ℕ) (hi : i < 25)
    (hin : i < close.length) : (macdLine close 12 26)[i]? = some none := by
  by_cases h : 26 ≤ close.length
  · obtain ⟨M, hM, _⟩ := macdLine_eq_append close h
    rw [hM, List.getElem?_append_left (by simp only [List.length_replicate]; omega)]
    rw [List.getElem?_replicate, if_pos (by omega)]
  · rw [macdLine_all_none close (by omega), List.getElem?_replicate, if_pos hin]

theorem signalLine_warmup (close : List ℚ) (i : ℕ) (hi : i < 33)
    (hin : i < close.length) : (signalLine close 12 26 9)[i]? = some none := by
  by_cases h : 26 ≤ close.length
  · obtain ⟨M, hM, hMlen⟩ := signalLine_shape close h
    rw [hM]
    by_cases hi25 : i < 25
    · rw [List.getElem?_append_left (by simp only [List.length_replicate]; omega)]
      rw [List.getElem?_replicate, if_pos (by omega)]
    · rw [List.getElem?_append_right (by simp only [List.length_replicate]; omega)]
      simp only [List.length_replicate]
      exact EMA_warmup M 9 (i - 25) (by omega) (by omega)
  · rw [signalLine_short close (by omega), List.getElem?_replicate, if_pos hin]

theorem macdHist_warmup (close : List ℚ) (i : ℕ) (hi : i < 33)
    (hin : i < close.length) : (macdHist close 12 26 9)[i]? = some none := by
  unfold macdHist
  have hs := signalLine_warmup close i hi hin
  obtain ⟨v, hv⟩ : ∃ v, (macdLine close 12 26)[i]? = some v :=
    getElem?_isSome_of_lt (by rw [macdLine_length]; omega)
  rw [getElem?_zipWith_some sub2 _ _ i v none hv hs, sub2_none_right]

theorem ATR_warmup (high low close : List ℚ) (period i : ℕ)
    (hik : i < period - 1) (hin : i < close.length) :
    (ATR high low close period)[i]? = some none := by
  unfold ATR
  split
  · rw [List.getElem?_append_left (by simp only [List.length_replicate]; omega)]
    rw [List.getElem?_replicate, if_pos (by omega)]
  · rw [List.getElem?_replicate, if_pos hin]

theorem growth_getElem (close : List ℚ) (n i : ℕ) (hi : i < close.length) :
    (growth close n)[i]? =
      some (if 1 ≤ n ∧ n ≤ i
        then some ((close.getD i 0 - close.getD (i - n) 0) / close.getD (i - n) 0)
        else none) := by
  simp [growth, List.getElem?_map, List.getElem?_range hi]

theorem growth_warmup (close : List ℚ) (n i : ℕ) (hik : i < n)
    (hin : i < close.length) : (growth close n)[i]? = some none := by
  rw [growth_getElem close n i hin]
  have hcond : ¬(1 ≤ n ∧ n ≤ i) := by omega
  simp [hcond]

theorem volatility_warmup (close : List ℚ) (w i : ℕ) (hik : i < w - 1)
    (hin : i < close.length) : (volatility close w)[i]? = some none := by
  unfold volatility
  rw [List.getElem?_map, List.getElem?_range hin]
  have hcond : ¬(2 ≤ w ∧ w ≤ i + 1) := by omega
  simp [hcond]

theorem movingAverage_warmup (close : List ℚ) (w i : ℕ) (hik : i < w - 1)
    (hin : i < close.length) : (movingAverage close w)[i]? = some none :=
  SMA_warmup close w i hik hin

/-! ## Example data -/

/-- A one-bar example price series. -/
def exSeries1 : PriceSeries :=
  ⟨[some 1], [1], [1], [1], [some 1]⟩

/-- A two-bar example price series. -/
def exSeries2 : PriceSeries :=
  ⟨[some 1, some 2], [1, 2], [1, 2], [1, 2], [some 1, some 1]⟩

/-! ## Claim C5: pipeline column names, lengths, warm-ups -/

/-- C5 (counterexample): the enriched frame's PyNance-derived columns are
named `PN_GROWTH_5`, `PN_VOL_20` and `PN_MOVAVE_10`
(run_technical_analysis.py:65-67), so the frame contains no columns named
`GROWTH_5`, `VOL_20` or `MOVAVE_10` as the claim states. -/
theorem pipeline_lacks_unprefixed_pynance_names :
    "GROWTH_5" ∉ ((runPipeline exSeries1).cols.map Prod.fst) ∧
    "VOL_20" ∉ ((runPipeline exSeries1).cols.map Prod.fst) ∧
    "MOVAVE_10" ∉ ((runPipeline exSeries1).cols.map Prod.fst) ∧
    (runPipeline exSeries1).cols.map Prod.fst =
      ["SMA_20", "EMA_50", "RSI_14", "MACD", "MACD_SIGNAL", "MACD_HIST",
        "ATR_14", "PN_GROWTH_5", "PN_VOL_20", "PN_MOVAVE_10"] :=
  ⟨by decide, by decide, by decide, by decide⟩

/-- C5 (amended): for every input series the pipeline adds exactly the ten
indicator columns `SMA_20`, `EMA_50`, `RSI_14`, `MACD`, `MACD_SIGNAL`,
`MACD_HIST`, `ATR_14`, `PN_GROWTH_5`, `PN_VOL_20`, `PN_MOVAVE_10` (in this
order), each with one row per input date, and each with sentinel entries on
its leading warm-up rows. -/
theorem pipeline_column_names_lengths_warmups (ps : PriceSeries) :
    (runPipeline ps).cols =
      [("SMA_20", SMA ps.Close 20), ("EMA_50", EMA ps.Close 50),
        ("RSI_14", RSI ps.Close 14), ("MACD", macdLine ps.Close 12 26),
        ("MACD_SIGNAL", signalLine ps.Close 12 26 9),
        ("MACD_HIST", macdHist ps.Close 12 26 9),
        ("ATR_14", ATR ps.High ps.Low ps.Close 14),
        ("PN_GROWTH_5", growth ps.Close 5),
        ("PN_VOL_20", volatility ps.Close 20),
        ("PN_MOVAVE_10", movingAverage ps.Close 10)] ∧
    (∀ p ∈ (runPipeline ps).cols, p.2.length = ps.Close.length) ∧
    (∀ i, i < ps.Close.length →
      (i < 19 → (SMA ps.Close 20)[i]? = some none) ∧
      (i < 49 → (EMA ps.Close 50)[i]? = some none) ∧
      (i < 14 → (RSI ps.Close 14)[i]? = some none) ∧
      (i < 25 → (macdLine ps.Close 12 26)[i]? = some none) ∧
      (i < 33 → (signalLine ps.Close 12 26 9)[i]? = some none) ∧
      (i < 33 → (macdHist ps.Close 12 26 9)[i]? = some none) ∧
      (i < 13 → (ATR ps.High ps.Low ps.Close 14)[i]? = some none) ∧
      (i < 5 → (growth ps.Close 5)[i]? = some none) ∧
      (i < 19 → (volatility ps.Close 20)[i]? = some none) ∧
      (i < 9 → (movingAverage ps.Close 10)[i]? = some none)) := by
  have hcols : (runPipeline ps).cols =
      [("SMA_20", SMA ps.Close 20), ("EMA_50", EMA ps.Close 50),
        ("RSI_14", RSI ps.Close 14), ("MACD", macdLine ps.Close 12 26),
        ("MACD_SIGNAL", signalLine ps.Close 12 26 9),
        ("MACD_HIST", macdHist ps.Close 12 26 9),
        ("ATR_14", ATR ps.High ps.Low ps.Close 14),
        ("PN_GROWTH_5", growth ps.Close 5),
        ("PN_VOL_20", volatility ps.Close 20),
        ("PN_MOVAVE_10", movingAverage ps.Close 10)] := rfl
  refine ⟨hcols, ?_, ?_⟩
  · intro p hp
    rw [hcols] at hp
    simp only [List.mem_cons, List.not_mem_nil, or_false] at hp
    rcases hp with rfl | rfl | rfl | rfl | rfl | rfl | rfl | rfl | rfl | rfl
    · exact SMA_length ps.Close 20
    · exact EMA_length ps.Close 50
    · exact RSI_length ps.Close 14
    · exact macdLine_length ps.Close 12 26
    · exact signalLine_length ps.Close 12 26 9
    · exact macdHist_length ps.Close 12 26 9
    · exact ATR_length ps.High ps.Low ps.Close 14
    · exact growth_length ps.Close 5
    · exact volatility_length ps.Close 20
    · exact movingAverage_length ps.Close 10
  · intro i hin
    exact ⟨fun h => SMA_warmup ps.Close 20 i (by omega) hin,
      fun h => EMA_warmup ps.Close 50 i (by omega) hin,
      fun h => RSI_warmup ps.Close 14 i (by omega) hin,
      fun h => macdLine_warmup ps.Close i (by omega) hin,
      fun h => signalLine_warmup ps.Close i (by omega) hin,
      fun h => macdHist_warmup ps.Close i (by omega) hin,
      fun h => ATR_warmup ps.High ps.Low ps.Close 14 i (by omega) hin,
      fun h => growth_warmup ps.Close 5 i (by omega) hin,
      fun h => volatility_warmup ps.Close 20 i (by omega) hin,
      fun h => movingAverage_warmup ps.Close 10 i (by omega) hin⟩

/-- Witness for the amended C5 at a concrete two-bar series: the column
names are the ten actual names and row 0 of the `SMA_20` column is a
sentinel. -/
theorem pipeline_column_names_lengths_warmups_witness :
    (runPipeline exSeries2).cols.map Prod.fst =
      ["SMA_20", "EMA_50", "RSI_14", "MACD", "MACD_SIGNAL", "MACD_HIST",
        "ATR_14", "PN_GROWTH_5", "PN_VOL_20", "PN_MOVAVE_10"] ∧
    (SMA exSeries2.Close 20)[0]? = some none := by
  have h := pipeline_column_names_lengths_warmups exSeries2
  exact ⟨by rw [h.1]; rfl, (h.2.2 0 (by decide)).1 (by decide)⟩

/-! ## Claim C6: the pipeline mutates its input frame in place -/

theorem enrich_base (f : Frame) : (enrich f).base = f.base := rfl

theorem enrich_cols (f : Frame) :
    (enrich f).cols = f.cols ++
      [("SMA_20", SMA f.base.Close 20), ("EMA_50", EMA f.base.Close 50),
        ("RSI_14", RSI f.base.Close 14), ("MACD", macdLine f.base.Close 12 26),
        ("MACD_SIGNAL", signalLine f.base.Close 12 26 9),
        ("MACD_HIST", macdHist f.base.Close 12 26 9),
        ("ATR_14", ATR f.base.High f.base.Low f.base.Close 14),
        ("PN_GROWTH_5", growth f.base.Close 5),
        ("PN_VOL_20", volatility f.base.Close 20),
        ("PN_MOVAVE_10", movingAverage f.base.Close 10)] := by
  simp [enrich, compute_talib_indicators, compute_pynance_metrics,
    Frame.setCol, MACD, List.append_assoc]

/-- C6 (counterexample): on a one-element heap holding a bare one-bar
frame, running the two enrichment passes with Python's in-place column
assignment overwrites the frame stored at the input's reference (the heap
cell no longer holds the original frame) and returns the very same
reference, not a separate value. -/
theorem pipeline_not_pure_on_example :
    (runPipelineInPlace [initFrame exSeries1] 0).2 = 0 ∧
    (runPipelineInPlace [initFrame exSeries1] 0).1[0]? ≠
      some (initFrame exSeries1) := by
  constructor
  · rfl
  · have h2 : (runPipelineInPlace [initFrame exSeries1] 0).1[0]? =
        some (enrich (initFrame exSeries1)) := rfl
    rw [h2]
    intro hc
    have hc2 := congrArg (fun g => Option.map (fun fr => fr.cols.length) g) hc
    simp only [Option.map_some] at hc2
    have hc3 : (enrich (initFrame exSeries1)).cols.length =
        (initFrame exSeries1).cols.length := by
      exact congrArg List.length (congrArg Frame.cols (Option.some.inj hc))
    rw [enrich_cols] at hc3
    simp [initFrame] at hc3

/-- C6 (amended): the two enrichment passes mutate the DataFrame object
they are given: the heap cell at the argument's reference is overwritten
with the enriched frame (which keeps the OHLCV base unchanged but has the
ten indicator columns appended, so it differs from the original), and the
same reference is returned. -/
theorem pipeline_mutates_frame_in_place (h : List Frame) (r : ℕ) (f : Frame)
    (hf : h[r]? = some f) :
    (runPipelineInPlace h r).2 = r ∧
    (runPipelineInPlace h r).1[r]? = some (enrich f) ∧
    (enrich f).base = f.base ∧
    enrich f ≠ f := by
  have hr : r < h.length := (List.getElem?_eq_some.mp hf).1
  refine ⟨?_, ?_, rfl, ?_⟩
  · simp [runPipelineInPlace, hf]
  · simp only [runPipelineInPlace, hf]
    exact List.getElem?_set_self hr
  · intro hcontra
    have hc := congrArg (fun g => g.cols.length) hcontra
    simp only [enrich_cols] at hc
    simp at hc

/-- Witness for the amended C6 at a concrete one-element heap. -/
theorem pipeline_mutates_frame_in_place_witness :
    (runPipelineInPlace [initFrame exSeries2] 0).2 = 0 ∧
    (runPipelineInPlace [initFrame exSeries2] 0).1[0]? =
      some (enrich (initFrame exSeries2)) := by
  obtain ⟨h1, h2, _, _⟩ := pipeline_mutates_frame_in_place
    [initFrame exSeries2] 0 (initFrame exSeries2) rfl
  exact ⟨h1, h2⟩

/-! ## Summary-extraction lemmas -/

theorem lastCompleteAux_spec (f : Frame) :
    ∀ m i, lastCompleteAux f m = some i →
      i < m ∧ f.rowComplete i = true ∧
      ∀ j, i < j → j < m → f.rowComplete j = false := by
  intro m
  induction m with
  | zero => intro i h; simp [lastCompleteAux] at h
  | succ m ih =>
    intro i h
    rw [lastCompleteAux] at h
    by_cases hc : f.rowComplete m = true
    · rw [if_pos hc] at h
      injection h with h
      subst h
      exact ⟨Nat.lt_succ_self _, hc, fun j hj1 hj2 => (by omega : False).elim⟩
    · rw [if_neg hc] at h
      obtain ⟨h1, h2, h3⟩ := ih i h
      refine ⟨by omega, h2, fun j hj1 hj2 => ?_⟩
      by_cases hj : j < m
      · exact h3 j hj1 hj
      · have hjm : j = m := by omega
        subst hjm
        exact Bool.eq_false_iff.mpr hc

theorem lastCompleteAux_none (f : Frame) :
    ∀ m, lastCompleteAux f m = none ↔
      ∀ j, j < m → f.rowComplete j = false := by
  intro m
  induction m with
  | zero => simp [lastCompleteAux]
  | succ m ih =>
    rw [lastCompleteAux]
    constructor
    · intro h j hj
      by_cases hc : f.rowComplete m = true
      · rw [if_pos hc] at h
        exact absurd h (by simp)
      · rw [if_neg hc] at h
        by_cases hjm : j < m
        · exact (ih.mp h) j hjm
        · have : j = m := by omega
          subst this
          exact Bool.eq_false_iff.mpr hc
    · intro h
      have hm : ¬f.rowComplete m = true := by
        rw [h m (Nat.lt_succ_self m)]
        simp
      rw [if_neg hm]
      exact ih.mpr fun j hj => h j (by omega)

/-! ## Claim C7: when summarization fails, and which row it reads -/

/-- C7 (amended): `summarize_metrics` fails hard (the `iloc[-1]` call on the
empty `dropna()` result raises `IndexError`, modelled as `none`) exactly
when no row of the frame has every column non-sentinel; otherwise the
returned record is built from the last row at which every column of the
frame — not merely the tracked indicator columns — is non-sentinel. -/
theorem summarize_fails_iff_no_complete_row (f : Frame) (t : String) :
    (summarize_metrics f t = none ↔
      ∀ j, j < f.nRows → f.rowComplete j = false) ∧
    (∀ r, summarize_metrics f t = some r → ∃ i, i < f.nRows ∧
      f.rowComplete i = true ∧
      (∀ j, i < j → j < f.nRows → f.rowComplete j = false) ∧
      r.close = cellAt (f.base.Close.map some) i) := by
  constructor
  · unfold summarize_metrics
    rw [Option.map_eq_none']
    exact lastCompleteAux_none f f.nRows
  · intro r h
    unfold summarize_metrics at h
    rw [Option.map_eq_some'] at h
    obtain ⟨i, hi, hr⟩ := h
    obtain ⟨h1, h2, h3⟩ := lastCompleteAux_spec f f.nRows i hi
    subst hr
    exact ⟨i, h1, h2, h3, rfl⟩

/-- The indicator columns reported as scalars in the summary record — what
claim C7 calls the tracked indicator columns (claim-side definition,
following the spec's words). -/
def trackedNames : List String :=
  ["SMA_20", "EMA_50", "RSI_14", "MACD_HIST", "ATR_14", "PN_GROWTH_5",
    "PN_VOL_20"]

/-- Row `i` has every tracked indicator column non-sentinel (claim-side
definition, following the spec's words). -/
def trackedRowComplete (f : Frame) (i : ℕ) : Bool :=
  trackedNames.all fun nm => defAt (f.getCol nm) i

/-- A 51-row enriched frame whose indicator columns satisfy their warm-up
invariants and are all defined on rows 49 and 50, but whose `Open` cell at
the last row (50) is the NaN sentinel — which `load_price_data` permits,
since only rows with missing `Close` are dropped.  `Close` is `7` at row 49
and `99` at row 50. -/
def cf7 : Frame :=
  { base :=
      { Open := List.replicate 50 (some 1) ++ [none]
        High := List.replicate 51 2
        Low := List.replicate 51 1
        Close := List.replicate 49 1 ++ [7, 99]
        Volume := List.replicate 51 (some 1) }
    cols :=
      [("SMA_20", List.replicate 19 none ++ List.replicate 32 (some 1)),
        ("EMA_50", List.replicate 49 none ++ [some 1, some 1]),
        ("RSI_14", List.replicate 14 none ++ List.replicate 37 (some 50)),
        ("MACD", List.replicate 25 none ++ List.replicate 26 (some 0)),
        ("MACD_SIGNAL", List.replicate 33 none ++ List.replicate 18 (some 0)),
        ("MACD_HIST", List.replicate 33 none ++ List.replicate 18 (some 0)),
        ("ATR_14", List.replicate 13 none ++ List.replicate 38 (some 1)),
        ("PN_GROWTH_5", List.replicate 5 none ++ List.replicate 46 (some 0)),
        ("PN_VOL_20", List.replicate 19 none ++ List.replicate 32 (some 0)),
        ("PN_MOVAVE_10", List.replicate 9 none ++ List.replicate 42 (some 1))] }

/-- C7 (counterexample): on `cf7` the last row (index 50 of 51) has every
tracked indicator column non-sentinel, yet `summarize_metrics` returns the
values of row 49 (`close = 7`) rather than of row 50 (`close = 99`): the
sentinel in the untracked `Open` column excludes the last row, so the
summary row is not the last row at which every tracked indicator column is
non-sentinel. -/
theorem summarize_not_last_tracked_row :
    trackedRowComplete cf7 50 = true ∧
    cf7.nRows = 51 ∧
    cellAt (cf7.base.Close.map some) 50 = some 99 ∧
    (summarize_metrics cf7 "T").map SummaryRecord.close = some (some 7) ∧
    some (7 : ℚ) ≠ some (99 : ℚ) :=
  ⟨by decide, by decide, by decide, by decide, by decide⟩

/-- Witness for the amended C7: `cf7` has a fully-complete row, so its
summarization does not fail. -/
theorem summarize_fails_iff_no_complete_row_witness :
    summarize_metrics cf7 "T" ≠ none := by
  intro hn
  have h := (summarize_fails_iff_no_complete_row cf7 "T").1.mp hn 49 (by decide)
  exact absurd h (by decide)

/-! ## Claim C10: the selection requires every column, and all scalars come
from the one selected row -/

/-- C10: when `summarize_metrics` succeeds, the selected row is the
greatest row index at which every column of the frame (the five OHLCV
columns and all ten indicator columns, including the unreported
`MACD_SIGNAL` and `PN_MOVAVE_10`) is non-sentinel — any later row has a
sentinel in some column, tracked or not — and every scalar of the returned
record, including `close`, is read from that single row. -/
theorem summarize_requires_every_column (f : Frame) (t : String)
    (r : SummaryRecord) (h : summarize_metrics f t = some r) :
    ∃ i, i < f.nRows ∧
      (∀ col ∈ f.allColumns, defAt col i = true) ∧
      (∀ j, i < j → j < f.nRows → ∃ col ∈ f.allColumns, defAt col j = false) ∧
      r.ticker = t ∧
      r.close = cellAt (f.base.Close.map some) i ∧
      r.sma_20 = cellAt (f.getCol "SMA_20") i ∧
      r.ema_50 = cellAt (f.getCol "EMA_50") i ∧
      r.rsi_14 = cellAt (f.getCol "RSI_14") i ∧
      r.macd_hist = cellAt (f.getCol "MACD_HIST") i ∧
      r.atr_14 = cellAt (f.getCol "ATR_14") i ∧
      r.pn_growth_5 = cellAt (f.getCol "PN_GROWTH_5") i ∧
      r.pn_vol_20 = cellAt (f.getCol "PN_VOL_20") i := by
  unfold summarize_metrics at h
  rw [Option.map_eq_some'] at h
  obtain ⟨i, hi, hr⟩ := h
  obtain ⟨h1, h2, h3⟩ := lastCompleteAux_spec f f.nRows i hi
  subst hr
  refine ⟨i, h1, ?_, ?_, rfl, rfl, rfl, rfl, rfl, rfl, rfl, rfl, rfl⟩
  · intro col hcol
    unfold Frame.rowComplete at h2
    exact List.all_eq_true.mp h2 col hcol
  · intro j hj1 hj2
    have hfalse := h3 j hj1 hj2
    unfold Frame.rowComplete at hfalse
    obtain ⟨col, hcol, hne⟩ := List.all_eq_false.mp hfalse
    exact ⟨col, hcol, Bool.eq_false_iff.mpr hne⟩

/-- The record that summarization of `cf7` produces (row 49). -/
def cf7Rec : SummaryRecord :=
  ⟨"T", some 7, some 1, some 1, some 50, some 0, some 1, some 0, some 0⟩

/-- Witness for C10 on `cf7`: the selected row has every column defined and
provides the record's `close` scalar. -/
theorem summarize_requires_every_column_witness :
    ∃ i, i < cf7.nRows ∧ (∀ col ∈ cf7.allColumns, defAt col i = true) ∧
      cf7Rec.close = cellAt (cf7.base.Close.map some) i := by
  obtain ⟨i, h1, h2, h3, h4, h5, hrest⟩ :=
    summarize_requires_every_column cf7 "T" cf7Rec (by decide)
  exact ⟨i, h1, h2, h5⟩

/-! ## Claim C8: batch failure policy -/

theorem mainLoop_cons (t : String) (ps : PriceSeries)
    (rest : List (String × PriceSeries)) :
    mainLoop ((t, ps) :: rest) =
      match runTicker t ps with
      | none => Except.error t
      | some r => (mainLoop rest).map fun l => r :: l :=
  rfl

/-- A two-bar price series, far shorter than every warm-up period. -/
def exTiny : PriceSeries :=
  ⟨[some 1, some 1], [2, 2], [1, 1], [1, 2], [some 5, some 5]⟩

/-- C8 (counterexample): a batch of three tickers whose first has only two
price rows does not degrade gracefully: `main` aborts at the first failing
summarization with its uncaught error, producing no summary table (and no
diagnostic list), instead of processing the remaining tickers. -/
theorem batch_failure_aborts_example :
    mainLoop [("SHORT", exTiny), ("T2", exSeries2), ("T3", exSeries1)] =
      Except.error "SHORT" := by
  rfl

/-- C8 (amended): `main` has no per-ticker exception handling: when every
ticker before some ticker `t` summarizes successfully and `t`'s
summarization fails, the whole batch run aborts with `t`'s error — the
tickers after `t` are not processed and no summary table is produced. -/
theorem batch_aborts_on_first_failure (pre : List (String × PriceSeries))
    (t : String) (ps : PriceSeries) (rest : List (String × PriceSeries))
    (hpre : ∀ x ∈ pre, runTicker x.1 x.2 ≠ none)
    (hfail : runTicker t ps = none) :
    mainLoop (pre ++ (t, ps) :: rest) = Except.error t := by
  induction pre with
  | nil =>
    rw [List.nil_append, mainLoop_cons, hfail]
  | cons x pre ih =>
    obtain ⟨tx, px⟩ := x
    have hx := hpre (tx, px) (List.mem_cons_self ..)
    obtain ⟨r, hr⟩ := Option.ne_none_iff_exists.mp hx
    rw [List.cons_append, mainLoop_cons, ← hr,
      ih fun y hy => hpre y (List.mem_cons_of_mem _ hy)]
    rfl

/-- Witness for the amended C8: a two-ticker batch whose first ticker is
too short aborts with that ticker's error. -/
theorem batch_aborts_on_first_failure_witness :
    mainLoop [("BAD", exTiny), ("OTHER", exSeries2)] = Except.error "BAD" :=
  batch_aborts_on_first_failure [] "BAD" exTiny [("OTHER", exSeries2)]
    (by simp) (by decide)

/-! ## Claim C9: insufficient history degrades every column to sentinels -/

theorem ATR_short (high low close : List ℚ) (k : ℕ) (h : close.length < k) :
    ATR high low close k = List.replicate close.length none := by
  unfold ATR
  rw [if_neg (by omega)]

theorem growth_short (close : List ℚ) (n : ℕ) (h : close.length < n) :
    growth close n = List.replicate close.length none := by
  apply List.ext_getElem?
  intro i
  by_cases hi : i < close.length
  · rw [growth_getElem close n i hi]
    have hcond : ¬(1 ≤ n ∧ n ≤ i) := by omega
    simp [hcond, List.getElem?_replicate, hi]
  · rw [List.getElem?_eq_none (by rw [growth_length]; omega),
      List.getElem?_eq_none (by rw [List.length_replicate]; omega)]

theorem volatility_short (close : List ℚ) (w : ℕ) (h : close.length < w) :
    volatility close w = List.replicate close.length none := by
  apply List.ext_getElem?
  intro i
  by_cases hi : i < close.length
  · unfold volatility
    rw [List.getElem?_map, List.getElem?_range hi]
    have hcond : ¬(2 ≤ w ∧ w ≤ i + 1) := by omega
    simp [hcond, List.getElem?_replicate, hi]
  · rw [List.getElem?_eq_none (by rw [volatility_length]; omega),
      List.getElem?_eq_none (by rw [List.length_replicate]; omega)]

theorem movingAverage_short (close : List ℚ) (w : ℕ) (h : close.length < w) :
    movingAverage close w = List.replicate close.length none :=
  SMA_short close w h

theorem macdHist_short (close : List ℚ) (h : close.length < 26) :
    macdHist close 12 26 9 = List.replicate close.length none := by
  unfold macdHist
  rw [macdLine_all_none close h, signalLine_short close h,
    zipWith_sub2_replicate_none_left]
  simp

theorem runPipeline_cols (ps : PriceSeries) :
    (runPipeline ps).cols =
      [("SMA_20", SMA ps.Close 20), ("EMA_50", EMA ps.Close 50),
        ("RSI_14", RSI ps.Close 14), ("MACD", macdLine ps.Close 12 26),
        ("MACD_SIGNAL", signalLine ps.Close 12 26 9),
        ("MACD_HIST", macdHist ps.Close 12 26 9),
        ("ATR_14", ATR ps.High ps.Low ps.Close 14),
        ("PN_GROWTH_5", growth ps.Close 5),
        ("PN_VOL_20", volatility ps.Close 20),
        ("PN_MOVAVE_10", movingAverage ps.Close 10)] :=
  rfl

/-- C9: for every price series shorter than a configured indicator period,
the pipeline does not raise: each indicator kernel is a total function
whose configured column is entirely sentinel — `SMA_20` below length 20,
`EMA_50` below 50, `RSI_14` below 14, the three MACD columns below the slow
period 26, `ATR_14` below 14, `PN_GROWTH_5` below 5, `PN_VOL_20` below 20
and `PN_MOVAVE_10` below 10 — and when the series is shorter than every
configured period, every one of the pipeline's ten indicator columns is
entirely sentinel. -/
theorem short_series_all_sentinel (ps : PriceSeries) :
    (ps.Close.length < 20 →
      SMA ps.Close 20 = List.replicate ps.Close.length none) ∧
    (ps.Close.length < 50 →
      EMA ps.Close 50 = List.replicate ps.Close.length none) ∧
    (ps.Close.length < 14 →
      RSI ps.Close 14 = List.replicate ps.Close.length none) ∧
    (ps.Close.length < 26 →
      macdLine ps.Close 12 26 = List.replicate ps.Close.length none) ∧
    (ps.Close.length < 26 →
      signalLine ps.Close 12 26 9 = List.replicate ps.Close.length none) ∧
    (ps.Close.length < 26 →
      macdHist ps.Close 12 26 9 = List.replicate ps.Close.length none) ∧
    (ps.Close.length < 14 →
      ATR ps.High ps.Low ps.Close 14 = List.replicate ps.Close.length none) ∧
    (ps.Close.length < 5 →
      growth ps.Close 5 = List.replicate ps.Close.length none) ∧
    (ps.Close.length < 20 →
      volatility ps.Close 20 = List.replicate ps.Close.length none) ∧
    (ps.Close.length < 10 →
      movingAverage ps.Close 10 = List.replicate ps.Close.length none) ∧
    (ps.Close.length < 5 → ∀ p ∈ (runPipeline ps).cols,
      p.2 = List.replicate ps.Close.length none) := by
  refine ⟨fun h => SMA_short ps.Close 20 h, fun h => EMA_short ps.Close 50 h,
    fun h => RSI_short ps.Close 14 h, fun h => macdLine_all_none ps.Close h,
    fun h => signalLine_short ps.Close h, fun h => macdHist_short ps.Close h,
    fun h => ATR_short ps.High ps.Low ps.Close 14 h,
    fun h => growth_short ps.Close 5 h, fun h => volatility_short ps.Close 20 h,
    fun h => movingAverage_short ps.Close 10 h, ?_⟩
  intro h5 p hp
  rw [runPipeline_cols] at hp
  simp only [List.mem_cons, List.not_mem_nil, or_false] at hp
  rcases hp with rfl | rfl | rfl | rfl | rfl | rfl | rfl | rfl | rfl | rfl
  · exact SMA_short ps.Close 20 (by omega)
  · exact EMA_short ps.Close 50 (by omega)
  · exact RSI_short ps.Close 14 (by omega)
  · exact macdLine_all_none ps.Close (by omega)
  · exact signalLine_short ps.Close (by omega)
  · exact macdHist_short ps.Close (by omega)
  · exact ATR_short ps.High ps.Low ps.Close 14 (by omega)
  · exact growth_short ps.Close 5 (by omega)
  · exact volatility_short ps.Close 20 (by omega)
  · exact movingAverage_short ps.Close 10 (by omega)

/-- A three-bar price series, the spec's insufficient-history scenario. -/
def exTiny3 : PriceSeries :=
  ⟨[some 1, some 1, some 1], [2, 2, 2], [1, 1, 1], [1, 2, 3],
    [some 5, some 5, some 5]⟩

/-- Witness for C9: the spec's scenario, a series of length 3: the
`RSI_14`, `ATR_14` and `MACD_HIST` columns are entirely sentinel, and so is
every indicator column of the pipeline run on it. -/
theorem short_series_all_sentinel_witness :
    RSI exTiny3.Close 14 = [none, none, none] ∧
    ATR exTiny3.High exTiny3.Low exTiny3.Close 14 = [none, none, none] ∧
    macdHist exTiny3.Close 12 26 9 = [none, none, none] ∧
    ∀ p ∈ (runPipeline exTiny3).cols, p.2 = [none, none, none] := by
  obtain ⟨hS, hE, hR, hM, hSg, hH, hA, hG, hV, hMA, hP⟩ :=
    short_series_all_sentinel exTiny3
  exact ⟨hR (by decide), hA (by decide), hH (by decide),
    fun p hp => hP (by decide) p hp⟩

end TechnicalAnalysis
